import Mathlib

/-!
Verification of the recursive block-duplication core of a Notion daily-journal
copier (`app.py`).  The Python functions `_convert_rich_text`,
`_prepare_blocks_for_copy`, `_fetch_blocks`, `_append_blocks` and
`copy_blocks` of class `NotionJournalManager` are embedded shallowly:

* Python dicts describing rich-text spans and blocks become structures whose
  fields mirror exactly the keys the code reads or writes.  Keys that the
  Notion API supplies on every object (`plain_text`, `href` -- the latter
  possibly `null`) are total fields (`href` is `Option String` with `none`
  standing for JSON `null` / absence); keys the code reads defensively with
  `.get` are `Option` fields.
* The store (the Notion client) becomes an explicit environment: the list of
  page responses a parent id yields, and the response to each batched append.
* Side effects are logged in an explicit trace (reads issued, append calls
  attempted, append calls committed, `copy_blocks` invocations entered).
-/

namespace NotionJournal

/-- mention payload of a span (`text['mention']`); the code only ever reads
its `type` key, defensively (`.get('type')`), so it is an `Option`. -/
structure Mention where
  mtype : Option String
  payload : String
deriving Repr, DecidableEq

/-- a link object `{'url': ...}` inside a text payload. -/
structure LinkObj where
  url : Option String
deriving Repr, DecidableEq

/-- text payload of a span (`text['text']`): the literal content plus an
optional link object. -/
structure TextContent where
  content : String
  link : Option LinkObj
deriving Repr, DecidableEq

/-- one rich-text span dict.  `type`, `plain_text` are always present in API
data and are read by direct indexing in the code; `href` is always present
but possibly `null` (modelled as `Option`); `text`, `mention` and
`annotations` model keys that may be absent (`none` = key absent). -/
structure RichTextSpan where
  type : String
  text : Option TextContent
  mention : Option Mention
  annotations : Option String
  plain_text : String
  href : Option String
deriving Repr, DecidableEq

/-- the test `text['type'] == 'mention' and text.get('mention', {}).get('type') == 'link_mention'`
guarding the conversion branch of `_convert_rich_text`. -/
def spanIsLinkMention (s : RichTextSpan) : Bool :=
  s.type == "mention" && (s.mention.bind Mention.mtype) == some "link_mention"

/-- the per-span body of the loop of `_convert_rich_text` (app.py:157-170):
a `link_mention` span is rebuilt as a plain `text` span with an explicit link
(`{'type': 'text', 'text': {'content': plain_text, 'link': {'url': href}},
'annotations': .get('annotations', {}), 'plain_text': plain_text}`); every
other span is appended unchanged. -/
def convertSpan (s : RichTextSpan) : RichTextSpan :=
  if spanIsLinkMention s then
    { type := "text"
      text := some { content := s.plain_text, link := some { url := s.href } }
      mention := none
      annotations := some (s.annotations.getD "")
      plain_text := s.plain_text
      href := none }
  else s

/-- the accumulator loop of `_convert_rich_text` (app.py:156-171):
`converted = []`, then one append per input span. -/
def convertGo (rich_text : List RichTextSpan) (converted : List RichTextSpan) :
    List RichTextSpan :=
  match rich_text with
  | [] => converted
  | t :: rest => convertGo rest (converted ++ [convertSpan t])

/-- `NotionJournalManager._convert_rich_text` (app.py:144-171). -/
def convert_rich_text (rich_text : List RichTextSpan) : List RichTextSpan :=
  convertGo rich_text []

/-- the type-specific payload dict stored under `block[block['type']]`.
The code only inspects its `rich_text` key (`'rich_text' in block_content`);
all other key-value pairs are carried opaquely in `other`. -/
structure BlockContent where
  rich_text : Option (List RichTextSpan)
  other : List (String × String)
deriving Repr, DecidableEq

/-- one fetched block dict: the keys `copy_blocks` and its helpers read. -/
structure Block where
  id : String
  type : String
  content : BlockContent
  has_children : Bool
deriving Repr, DecidableEq

/-- one write payload dict built by `_prepare_blocks_for_copy`
(`{"object": "block", "type": block_type, block_type: block_content}`):
no `id`, no `has_children`. -/
structure BlockPayload where
  type : String
  content : BlockContent
deriving Repr, DecidableEq

/-- the per-block body of `_prepare_blocks_for_copy` (app.py:212-224):
shallow-copy the type payload, replace its `rich_text` (when present) by the
converted spans, wrap with the `type` tag. -/
def prepareBlock (block : Block) : BlockPayload :=
  let block_content := block.content
  let block_content :=
    match block_content.rich_text with
    | some rt => { block_content with rich_text := some (convert_rich_text rt) }
    | none => block_content
  { type := block.type, content := block_content }

/-- the accumulator loop of `_prepare_blocks_for_copy` (app.py:211-225). -/
def prepareGo (blocks : List Block) (new_blocks : List BlockPayload) :
    List BlockPayload :=
  match blocks with
  | [] => new_blocks
  | b :: rest => prepareGo rest (new_blocks ++ [prepareBlock b])

/-- `NotionJournalManager._prepare_blocks_for_copy` (app.py:202-225). -/
def prepare_blocks_for_copy (blocks : List Block) : List BlockPayload :=
  prepareGo blocks []

/-- one response of the store's paginated `blocks.children.list` call. -/
structure ListResponse where
  results : List Block
  has_more : Bool
  next_cursor : Option String
deriving Repr, DecidableEq

/-- the `while has_more` loop of `_fetch_blocks` (app.py:186-200) run against
a store modelled as the list of successive responses it will give (an
`Except.error` entry models a raising call).  Returns the `start_cursor`
passed to each issued request together with the accumulated flat block list;
`none` means the loop raised (or the store gave no further response, a
situation the model treats as failure). -/
def fetchGo (cursor : Option String) (pages : List (Except Unit ListResponse)) :
    List (Option String) × Option (List Block) :=
  match pages with
  | [] => ([], none)
  | .error _ :: _ => ([cursor], none)
  | .ok r :: rest =>
    if r.has_more then
      let (cs, res) := fetchGo r.next_cursor rest
      (cursor :: cs, res.map (fun bs => r.results ++ bs))
    else ([cursor], some r.results)

/-- `NotionJournalManager._fetch_blocks` (app.py:173-200): the loop starts
with `start_cursor = None`. -/
def fetch_blocks (pages : List (Except Unit ListResponse)) :
    List (Option String) × Option (List Block) :=
  fetchGo none pages

/-- the content store as seen by `copy_blocks`: for each parent id the
successive responses of the paginated `blocks.children.list` call, and for
each (target id, batch number, batch) the response of
`blocks.children.append` (`Except.error` models a raising call). -/
structure Env where
  pages : String → List (Except Unit ListResponse)
  append : String → Nat → List BlockPayload → Except Unit (List Block)

/-- observation log of a run: list-children requests issued (parent id and
cursor), append calls attempted, append calls acknowledged by the store,
and `copy_blocks` invocations entered. -/
@[ext]
structure Trace where
  reads : List (String × Option String)
  writes : List (String × List BlockPayload)
  committed : List (String × List BlockPayload)
  calls : List (String × String)
deriving Repr, DecidableEq

/-- the batching loop of `_append_blocks` (app.py:242-250):
`for i in range(0, len(blocks), batch_size)` with batch `blocks[i:i+batch_size]`,
one append call per batch, extending `created_blocks` with each response.
`bpred + 1` is the (positive) batch size; `j` is the batch number. -/
def appendGo (env : Env) (target_id : String) (bpred : Nat) (j : Nat)
    (blocks : List BlockPayload) (tr : Trace) : Trace × Option (List Block) :=
  match blocks with
  | [] => (tr, some [])
  | b :: bs =>
    let batch := (b :: bs).take (bpred + 1)
    match env.append target_id j batch with
    | .error _ => ({ tr with writes := tr.writes ++ [(target_id, batch)] }, none)
    | .ok created =>
      let tr' := { tr with writes := tr.writes ++ [(target_id, batch)],
                           committed := tr.committed ++ [(target_id, batch)] }
      let r := appendGo env target_id bpred (j + 1) (bs.drop bpred) tr'
      (r.1, r.2.map (fun more => created ++ more))
termination_by blocks.length
decreasing_by simp [List.length_drop]; omega

/-- `NotionJournalManager._append_blocks` (app.py:227-250).  A zero
`batch_size` makes Python's `range(0, len(blocks), 0)` raise `ValueError`
before any call, modelled as failure with no write attempted. -/
def append_blocks (env : Env) (target_id : String) (blocks : List BlockPayload)
    (batch_size : Nat) (tr : Trace) : Trace × Option (List Block) :=
  match batch_size with
  | 0 => (tr, none)
  | bpred + 1 => appendGo env target_id bpred 0 blocks tr

mutual

/-- `NotionJournalManager.copy_blocks` (app.py:252-289): fetch all children,
prepare payloads, write them in batches, then for every `(source, created)`
pair (paired by `zip`) whose source has children, recurse -- discarding the
recursive call's boolean result, exactly as the Python code does.  `fuel`
bounds the recursion depth (the Python recursion is bounded only by the
tree); an exception anywhere in the body yields `false`. -/
def copy_blocks (env : Env) (fuel : Nat) (source_id target_id : String)
    (batch_size : Nat) (tr : Trace) : Trace × Bool :=
  match fuel with
  | 0 => (tr, false)
  | fuel + 1 =>
    let tr1 := { tr with calls := tr.calls ++ [(source_id, target_id)] }
    let fr := fetch_blocks (env.pages source_id)
    let tr2 := { tr1 with reads := tr1.reads ++ fr.1.map (fun c => (source_id, c)) }
    match fr.2 with
    | none => (tr2, false)
    | some blocks_buffer =>
      let new_blocks := prepare_blocks_for_copy blocks_buffer
      let ar := append_blocks env target_id new_blocks batch_size tr2
      match ar.2 with
      | none => (ar.1, false)
      | some created_blocks =>
        (recurseChildren env fuel batch_size (blocks_buffer.zip created_blocks) ar.1,
         true)
termination_by (fuel, 0)

/-- the `for source_block, created_block in zip(...)` loop of `copy_blocks`
(app.py:274-280): the recursive result is not consulted; only its trace
effects remain. -/
def recurseChildren (env : Env) (fuel : Nat) (batch_size : Nat)
    (pairs : List (Block × Block)) (tr : Trace) : Trace :=
  match pairs with
  | [] => tr
  | p :: ps =>
    let tr' := if p.1.has_children
      then (copy_blocks env fuel p.1.id p.2.id batch_size tr).1
      else tr
    recurseChildren env fuel batch_size ps tr'
termination_by (fuel, pairs.length + 1)

end

/-- the consecutive batches `blocks[i:i+batch_size]` that the loop of
`_append_blocks` slices off, for batch size `bpred + 1`. -/
def batchesOf (bpred : Nat) (l : List BlockPayload) : List (List BlockPayload) :=
  match l with
  | [] => []
  | b :: bs => (b :: bs).take (bpred + 1) :: batchesOf bpred (bs.drop bpred)
termination_by l.length
decreasing_by simp [List.length_drop]; omega

/-- store for the C1 counterexample: source "s" has one child "c" flagged
`has_children`; fetching "c"'s own children raises; every append call
succeeds, creating "c2". -/
def env1 : Env :=
  { pages := fun i =>
      if i = "s"
      then [Except.ok { results := [{ id := "c", type := "paragraph",
                                      content := { rich_text := none, other := [] },
                                      has_children := true }],
                        has_more := false, next_cursor := none }]
      else [Except.error ()],
    append := fun _ _ _ =>
      Except.ok [{ id := "c2", type := "paragraph",
                   content := { rich_text := none, other := [] },
                   has_children := false }] }

/-- store for the C5 witness: three one-block batches; the append call for
batch number 1 (the second of three) fails, the others succeed. -/
def env5 : Env :=
  { pages := fun _ =>
      [Except.ok { results :=
                     [{ id := "b1", type := "paragraph",
                        content := { rich_text := none, other := [] },
                        has_children := false },
                      { id := "b2", type := "paragraph",
                        content := { rich_text := none, other := [] },
                        has_children := false },
                      { id := "b3", type := "paragraph",
                        content := { rich_text := none, other := [] },
                        has_children := false }],
                   has_more := false, next_cursor := none }],
    append := fun _ j _ =>
      if j = 1 then Except.error ()
      else Except.ok [{ id := "n", type := "paragraph",
                        content := { rich_text := none, other := [] },
                        has_children := false }] }

/-- concrete data for the C2 witness: a `link_mention` span, its rewritten
form, a plain text span, two source children and the block the mock store
reports as created. -/
def lmSpan : RichTextSpan :=
  { type := "mention", text := none,
    mention := some { mtype := some "link_mention", payload := "m" },
    annotations := some "ann", plain_text := "X", href := some "https://x" }

def lmText : RichTextSpan :=
  { type := "text",
    text := some { content := "X", link := some { url := some "https://x" } },
    mention := none, annotations := some "ann", plain_text := "X", href := none }

def tdSpan : RichTextSpan :=
  { type := "text", text := some { content := "task", link := none },
    mention := none, annotations := some "plain", plain_text := "task",
    href := none }

def blk1 : Block :=
  { id := "b1", type := "paragraph",
    content := { rich_text := some [lmSpan], other := [] },
    has_children := false }

def blk2 : Block :=
  { id := "b2", type := "to_do",
    content := { rich_text := some [tdSpan], other := [("checked", "false")] },
    has_children := false }

def nBlk : Block :=
  { id := "n", type := "paragraph",
    content := { rich_text := none, other := [] }, has_children := false }

/-- store for the C2 witness: every append call succeeds and creates `nBlk`. -/
def env2 : Env :=
  { pages := fun _ =>
      [Except.ok { results := [blk1, blk2], has_more := false,
                   next_cursor := none }],
    append := fun _ _ _ => Except.ok [nBlk] }

/-- trace after the C2 witness run: two one-payload batches, both attempted
and committed, in order. -/
def trW2 : Trace :=
  { reads := [],
    writes :=
      [("t", [{ type := "paragraph",
                content := { rich_text := some [lmText], other := [] } }]),
       ("t", [{ type := "to_do",
                content := { rich_text := some [tdSpan],
                             other := [("checked", "false")] } }])],
    committed :=
      [("t", [{ type := "paragraph",
                content := { rich_text := some [lmText], other := [] } }]),
       ("t", [{ type := "to_do",
                content := { rich_text := some [tdSpan],
                             other := [("checked", "false")] } }])],
    calls := [] }

/-- first source child of the C6 witness, flagged as having children. -/
def chld1 : Block :=
  { id := "c1", type := "paragraph",
    content := { rich_text := none, other := [] }, has_children := true }

/-- second source child of the C6 witness, also flagged, but with no
corresponding created block. -/
def chld2 : Block :=
  { id := "c2", type := "paragraph",
    content := { rich_text := none, other := [] }, has_children := true }

/-- the single created block the C6 witness store acknowledges. -/
def crt1 : Block :=
  { id := "n1", type := "paragraph",
    content := { rich_text := none, other := [] }, has_children := false }

/-- store for the C6 witness: two fetched children but the append response
contains only one created block. -/
def env6 : Env :=
  { pages := fun i =>
      if i = "s"
      then [Except.ok { results := [chld1, chld2], has_more := false,
                        next_cursor := none }]
      else [],
    append := fun _ _ _ => Except.ok [crt1] }

/-- heap values for the aliasing model of `_prepare_blocks_for_copy`:
Python dict/list objects are numbered cells referencing nested objects by
cell address, mirroring Python reference semantics.  Span dicts are leaf
cells (the code only ever reads them whole or replaces the reference). -/
inductive HVal where
  | blockCell (id : String) (type : String) (contentAddr : Nat)
      (has_children : Bool)
  | contentCell (richTextAddr : Option Nat) (other : List (String × String))
  | listCell (elems : List Nat)
  | spanCell (s : RichTextSpan)
  | payloadCell (type : String) (contentAddr : Nat)
deriving Repr, DecidableEq

/-- a Python object heap: cell addresses are list positions. -/
abbrev Heap := List HVal

/-- allocating a fresh object: append a cell, return heap and its address. -/
def Heap.alloc (h : Heap) (v : HVal) : Heap × Nat := (h ++ [v], h.length)

/-- the loop of `_convert_rich_text` over the span objects of the source
list: a `link_mention` span is rebuilt as a fresh dict (allocated), any
other span is appended to `converted` as the same object (address reuse,
`converted.append(text)`); a non-span cell means Python would raise. -/
def convertSpansH (h : Heap) (addrs : List Nat) : Heap × Option (List Nat) :=
  match addrs with
  | [] => (h, some [])
  | a :: rest =>
    match h[a]? with
    | some (.spanCell s) =>
      if spanIsLinkMention s then
        let al := Heap.alloc h (.spanCell (convertSpan s))
        match convertSpansH al.1 rest with
        | (h2, some as) => (h2, some (al.2 :: as))
        | (h2, none) => (h2, none)
      else
        match convertSpansH h rest with
        | (h2, some as) => (h2, some (a :: as))
        | (h2, none) => (h2, none)
    | _ => (h, none)

/-- `_convert_rich_text` at heap level: read the span list object, build the
fresh `converted` list object. -/
def convertRichTextH (h : Heap) (listAddr : Nat) : Heap × Option Nat :=
  match h[listAddr]? with
  | some (.listCell elems) =>
    match convertSpansH h elems with
    | (h2, some as) =>
      let al := Heap.alloc h2 (.listCell as)
      (al.1, some al.2)
    | (h2, none) => (h2, none)
  | _ => (h, none)

/-- one iteration of `_prepare_blocks_for_copy` at heap level:
`block_content = block[block_type].copy()` allocates a fresh shallow copy
(sharing the `rich_text` list address); the assignment
`block_content['rich_text'] = ...` mutates only that fresh copy; the
appended result dict is a fresh payload cell. -/
def prepareBlockH (h : Heap) (blockAddr : Nat) : Heap × Option Nat :=
  match h[blockAddr]? with
  | some (.blockCell _ ty ca _) =>
    match h[ca]? with
    | some (.contentCell rta other) =>
      let cp := Heap.alloc h (.contentCell rta other)
      match rta with
      | some rtAddr =>
        match convertRichTextH cp.1 rtAddr with
        | (h2, some newRt) =>
          let h3 := h2.set cp.2 (.contentCell (some newRt) other)
          let pl := Heap.alloc h3 (.payloadCell ty cp.2)
          (pl.1, some pl.2)
        | (h2, none) => (h2, none)
      | none =>
        let pl := Heap.alloc cp.1 (.payloadCell ty cp.2)
        (pl.1, some pl.2)
    | _ => (h, none)
  | _ => (h, none)

/-- the loop of `_prepare_blocks_for_copy` over the fetched block objects. -/
def prepareBlocksH (h : Heap) (blockAddrs : List Nat) :
    Heap × Option (List Nat) :=
  match blockAddrs with
  | [] => (h, some [])
  | a :: rest =>
    match prepareBlockH h a with
    | (h2, some pa) =>
      match prepareBlocksH h2 rest with
      | (h3, some pas) => (h3, some (pa :: pas))
      | (h3, none) => (h3, none)
    | (h2, none) => (h2, none)

/-- `h1` contains every cell of `h0` unchanged (all growth and mutation
happened at addresses `h0` did not own). -/
def HeapExtends (h0 h1 : Heap) : Prop :=
  h0.length ≤ h1.length ∧ ∀ a, a < h0.length → h1[a]? = h0[a]?

/-- initial heap for the C7 witness: one block (address 3) whose content
(address 2) holds a `rich_text` list (address 1) with one `link_mention`
span (address 0). -/
def h7start : Heap :=
  [HVal.spanCell lmSpan, HVal.listCell [0], HVal.contentCell (some 1) [],
   HVal.blockCell "b" "paragraph" 2 false]

/-- heap after the C7 witness run: the four source cells are untouched; the
copy (4), the rewritten span (5), the fresh list (6) and the payload (7)
are all new. -/
def h7final : Heap :=
  [HVal.spanCell lmSpan, HVal.listCell [0], HVal.contentCell (some 1) [],
   HVal.blockCell "b" "paragraph" 2 false,
   HVal.contentCell (some 6) [], HVal.spanCell lmText, HVal.listCell [5],
   HVal.payloadCell "paragraph" 4]

theorem convertGo_eq (l acc : List RichTextSpan) :
    convertGo l acc = acc ++ l.map convertSpan := by
  induction l generalizing acc with
  | nil => simp [convertGo]
  | cons t rest ih => simp [convertGo, ih]

theorem convert_rich_text_eq_map (l : List RichTextSpan) :
    convert_rich_text l = l.map convertSpan := by
  simp [convert_rich_text, convertGo_eq]

/-- C10: the rewrite is an elementwise map: it returns a list of exactly the
input's length, and the ith output span is `convertSpan` of the ith input
span alone; no span is dropped, merged or inserted. -/
theorem convert_rich_text_elementwise (l : List RichTextSpan) :
    (convert_rich_text l).length = l.length ∧
    convert_rich_text l = l.map convertSpan ∧
    ∀ i : Nat, (convert_rich_text l).get? i = (l.get? i).map convertSpan := by
  refine ⟨?_, convert_rich_text_eq_map l, ?_⟩
  · simp [convert_rich_text_eq_map]
  · intro i
    simp [convert_rich_text_eq_map]

theorem map_convertSpan_of_no_link_mention (l : List RichTextSpan)
    (h : ∀ s ∈ l, spanIsLinkMention s = false) : l.map convertSpan = l := by
  induction l with
  | nil => rfl
  | cons s rest ih =>
    have hs : spanIsLinkMention s = false := h s (by simp)
    have hr := ih (fun x hx => h x (by simp [hx]))
    simp [convertSpan, hs, hr]

/-- C8: on a span sequence containing no `link_mention` entries the rewrite
is idempotent (indeed the identity, so a second application changes
nothing). -/
theorem convert_rich_text_idempotent (l : List RichTextSpan)
    (h : ∀ s ∈ l, spanIsLinkMention s = false) :
    convert_rich_text (convert_rich_text l) = convert_rich_text l := by
  have hid : convert_rich_text l = l := by
    rw [convert_rich_text_eq_map]
    exact map_convertSpan_of_no_link_mention l h
  rw [hid]
  exact hid

/-- witness for C8 at a concrete two-span sequence (a plain text span and a
`date` mention). -/
theorem convert_rich_text_idempotent_witness :
    convert_rich_text (convert_rich_text
      [{ type := "text", text := some { content := "hello", link := none },
         mention := none, annotations := some "bold", plain_text := "hello",
         href := none },
       { type := "mention",
         text := none, mention := some { mtype := some "date", payload := "d" },
         annotations := none, plain_text := "2026-10-12", href := none }]) =
    convert_rich_text
      [{ type := "text", text := some { content := "hello", link := none },
         mention := none, annotations := some "bold", plain_text := "hello",
         href := none },
       { type := "mention",
         text := none, mention := some { mtype := some "date", payload := "d" },
         annotations := none, plain_text := "2026-10-12", href := none }] :=
  convert_rich_text_idempotent _ (by decide)

/-- C3: a `link_mention` span with href `u` and annotations `a` rewrites to
exactly the `text` span whose text content and `plain_text` are the original
plain text, whose link url is `u`, and whose annotations are `a`. -/
theorem convertSpan_link_mention (s : RichTextSpan) (u a : String)
    (htype : s.type = "mention")
    (hment : s.mention.bind Mention.mtype = some "link_mention")
    (hhref : s.href = some u)
    (hann : s.annotations = some a) :
    convertSpan s =
      { type := "text"
        text := some { content := s.plain_text, link := some { url := some u } }
        mention := none
        annotations := some a
        plain_text := s.plain_text
        href := none } := by
  have hlm : spanIsLinkMention s = true := by
    simp [spanIsLinkMention, htype, hment]
  simp [convertSpan, hlm, hhref, hann]

/-- C3 witness: the spec's concrete span (`plain_text` "X", target
"https://x") rewrites to the spec's concrete text span. -/
theorem convertSpan_link_mention_witness :
    convertSpan
      { type := "mention", text := none,
        mention := some { mtype := some "link_mention", payload := "m" },
        annotations := some "ann", plain_text := "X", href := some "https://x" } =
      { type := "text"
        text := some { content := "X", link := some { url := some "https://x" } }
        mention := none
        annotations := some "ann"
        plain_text := "X"
        href := none } :=
  convertSpan_link_mention _ "https://x" "ann" rfl rfl rfl rfl

theorem prepareGo_eq (l : List Block) (acc : List BlockPayload) :
    prepareGo l acc = acc ++ l.map prepareBlock := by
  induction l generalizing acc with
  | nil => simp [prepareGo]
  | cons b rest ih => simp [prepareGo, ih]

theorem prepare_blocks_for_copy_eq_map (l : List Block) :
    prepare_blocks_for_copy l = l.map prepareBlock := by
  simp [prepare_blocks_for_copy, prepareGo_eq]

theorem fetchGo_spec (front : List ListResponse) (last : ListResponse)
    (rest : List (Except Unit ListResponse)) (c : Option String)
    (hf : ∀ p ∈ front, p.has_more = true) (hl : last.has_more = false) :
    fetchGo c (front.map Except.ok ++ Except.ok last :: rest) =
      (c :: front.map ListResponse.next_cursor,
       some ((front.map ListResponse.results).flatten ++ last.results)) := by
  induction front generalizing c with
  | nil => simp [fetchGo, hl]
  | cons p front ih =>
    have hp : p.has_more = true := hf p (by simp)
    simp [fetchGo, hp, ih p.next_cursor (fun q hq => hf q (by simp [hq]))]

/-- C4: for any store whose responses are `front` pages with `has_more`
true followed by a page with `has_more` false (further responses `rest`
unreachable), the fetch issues its first request with no cursor, each later
request with the previous page's `next_cursor`, stops at the first
`has_more = false` page, and returns the flat, order-preserving
concatenation of all returned pages. -/
theorem fetch_blocks_paginates (front : List ListResponse) (last : ListResponse)
    (rest : List (Except Unit ListResponse))
    (hf : ∀ p ∈ front, p.has_more = true) (hl : last.has_more = false) :
    fetch_blocks (front.map Except.ok ++ Except.ok last :: rest) =
      (none :: front.map ListResponse.next_cursor,
       some ((front.map ListResponse.results).flatten ++ last.results)) :=
  fetchGo_spec front last rest none hf hl

/-- C4 witness: a store returning 2 items with `has_more = true` then 1 item
with `has_more = false` yields exactly the 3 items in order, via requests
with cursor `None` then cursor `"cur"`. -/
theorem fetch_blocks_paginates_witness :
    fetch_blocks
      [Except.ok { results := [{ id := "b1", type := "paragraph",
                                 content := { rich_text := none, other := [] },
                                 has_children := false },
                               { id := "b2", type := "paragraph",
                                 content := { rich_text := none, other := [] },
                                 has_children := false }],
                   has_more := true, next_cursor := some "cur" },
       Except.ok { results := [{ id := "b3", type := "paragraph",
                                 content := { rich_text := none, other := [] },
                                 has_children := false }],
                   has_more := false, next_cursor := none }] =
      ([none, some "cur"],
       some [{ id := "b1", type := "paragraph",
               content := { rich_text := none, other := [] },
               has_children := false },
             { id := "b2", type := "paragraph",
               content := { rich_text := none, other := [] },
               has_children := false },
             { id := "b3", type := "paragraph",
               content := { rich_text := none, other := [] },
               has_children := false }]) := by
  have h := fetch_blocks_paginates
    [{ results := [{ id := "b1", type := "paragraph",
                     content := { rich_text := none, other := [] },
                     has_children := false },
                   { id := "b2", type := "paragraph",
                     content := { rich_text := none, other := [] },
                     has_children := false }],
       has_more := true, next_cursor := some "cur" }]
    { results := [{ id := "b3", type := "paragraph",
                    content := { rich_text := none, other := [] },
                    has_children := false }],
      has_more := false, next_cursor := none }
    [] (by decide) rfl
  simpa using h

theorem batchesOf_flatten (bpred : Nat) (l : List BlockPayload) :
    (batchesOf bpred l).flatten = l := by
  induction l using batchesOf.induct bpred with
  | case1 => simp [batchesOf]
  | case2 b bs ih =>
    rw [batchesOf]
    simp only [List.flatten_cons, ih, List.take_cons]
    simp [List.take_append_drop]

theorem appendGo_ok (env : Env) (t : String) (bpred : Nat) :
    ∀ (n : Nat) (blocks : List BlockPayload) (j : Nat) (tr tr2 : Trace)
      (created : List Block), blocks.length ≤ n →
      appendGo env t bpred j blocks tr = (tr2, some created) →
      tr2 = { tr with
              writes := tr.writes ++
                (batchesOf bpred blocks).map (fun bb => (t, bb)),
              committed := tr.committed ++
                (batchesOf bpred blocks).map (fun bb => (t, bb)) } := by
  intro n
  induction n with
  | zero =>
    intro blocks j tr tr2 created hlen heq
    have hb : blocks = [] := List.length_eq_zero.mp (Nat.le_zero.mp hlen)
    subst hb
    rw [appendGo] at heq
    simp only [Prod.mk.injEq] at heq
    rw [← heq.1]
    ext <;> simp [batchesOf]
  | succ n ih =>
    intro blocks j tr tr2 created hlen heq
    match blocks with
    | [] =>
      rw [appendGo] at heq
      simp only [Prod.mk.injEq] at heq
      rw [← heq.1]
      ext <;> simp [batchesOf]
    | b :: bs =>
      rw [appendGo] at heq
      rcases hap : env.append t j ((b :: bs).take (bpred + 1)) with e | created0
      · rw [hap] at heq; simp at heq
      · rw [hap] at heq
        simp only at heq
        rcases hrec : appendGo env t bpred (j + 1) (bs.drop bpred)
            { tr with
              writes := tr.writes ++ [(t, (b :: bs).take (bpred + 1))],
              committed := tr.committed ++ [(t, (b :: bs).take (bpred + 1))] }
          with ⟨tr3, res⟩
        rw [hrec] at heq
        cases res with
        | none => simp at heq
        | some more =>
          simp only [Option.map_some] at heq
          have h1 : tr2 = tr3 := (Prod.mk.injEq _ _ _ _ ▸ heq).1.symm
          have hlen' : (bs.drop bpred).length ≤ n := by
            have h3 : bs.length + 1 ≤ n + 1 := by simpa using hlen
            simp only [List.length_drop]
            omega
          have h2 := ih (bs.drop bpred) (j + 1) _ tr3 more hlen' hrec
          subst h1
          rw [h2]
          rw [batchesOf]
          ext <;> simp

theorem appendGo_fail (env : Env) (t : String) (bpred : Nat) :
    ∀ (k : Nat) (blocks : List BlockPayload) (j : Nat) (tr : Trace)
      (bk : List BlockPayload),
      (∀ i bi, i < k → (batchesOf bpred blocks).get? i = some bi →
        ∃ cr, env.append t (j + i) bi = .ok cr) →
      (batchesOf bpred blocks).get? k = some bk →
      env.append t (j + k) bk = .error () →
      appendGo env t bpred j blocks tr =
        ({ tr with
           writes := tr.writes ++
             (((batchesOf bpred blocks).take (k + 1)).map (fun bb => (t, bb))),
           committed := tr.committed ++
             (((batchesOf bpred blocks).take k).map (fun bb => (t, bb))) },
         none) := by
  intro k
  induction k with
  | zero =>
    intro blocks j tr bk hsucc hget hfail
    match blocks with
    | [] => simp [batchesOf] at hget
    | b :: bs =>
      rw [batchesOf] at hget
      simp only [List.get?] at hget
      have hbk : bk = (b :: bs).take (bpred + 1) := (Option.some.injEq _ _ ▸ hget).symm
      subst hbk
      rw [appendGo]
      rw [Nat.add_zero] at hfail
      rw [hfail]
      rw [batchesOf]
      ext <;> simp
  | succ k ih =>
    intro blocks j tr bk hsucc hget hfail
    match blocks with
    | [] => simp [batchesOf] at hget
    | b :: bs =>
      rw [batchesOf] at hget
      simp only [List.get?] at hget
      obtain ⟨cr0, hcr0⟩ := hsucc 0 ((b :: bs).take (bpred + 1)) (Nat.succ_pos k)
        (by rw [batchesOf]; rfl)
      rw [appendGo]
      rw [Nat.add_zero] at hcr0
      rw [hcr0]
      simp only
      have hrec := ih (bs.drop bpred) (j + 1)
        { tr with
          writes := tr.writes ++ [(t, (b :: bs).take (bpred + 1))],
          committed := tr.committed ++ [(t, (b :: bs).take (bpred + 1))] }
        bk
        (fun i bi hi hgi => by
          have := hsucc (i + 1) bi (Nat.succ_lt_succ hi)
            (by rw [batchesOf]; simpa using hgi)
          simpa [Nat.add_comm, Nat.add_assoc, Nat.add_left_comm] using this)
        hget
        (by
          have : j + 1 + k = j + (k + 1) := by omega
          rw [this]; exact hfail)
      rw [hrec]
      rw [batchesOf]
      ext <;> simp

theorem appendGo_snd_indep (env : Env) (t : String) (bpred : Nat) :
    ∀ (n : Nat) (blocks : List BlockPayload) (j : Nat) (tr tr'' : Trace),
      blocks.length ≤ n →
      (appendGo env t bpred j blocks tr).2 =
        (appendGo env t bpred j blocks tr'').2 := by
  intro n
  induction n with
  | zero =>
    intro blocks j tr tr'' hlen
    have hb : blocks = [] := List.length_eq_zero.mp (Nat.le_zero.mp hlen)
    subst hb
    rw [appendGo, appendGo]
  | succ n ih =>
    intro blocks j tr tr'' hlen
    match blocks with
    | [] => rw [appendGo, appendGo]
    | b :: bs =>
      rw [appendGo, appendGo]
      rcases hap : env.append t j ((b :: bs).take (bpred + 1)) with e | created0
      · simp [hap]
      · simp only [hap]
        have hlen' : (bs.drop bpred).length ≤ n := by
          have h3 : bs.length + 1 ≤ n + 1 := by simpa using hlen
          simp only [List.length_drop]
          omega
        exact congrArg (Option.map fun more => created0 ++ more)
          (ih (bs.drop bpred) (j + 1) _ _ hlen')

theorem append_blocks_snd_indep (env : Env) (t : String)
    (blocks : List BlockPayload) (bs : Nat) (tr tr'' : Trace) :
    (append_blocks env t blocks bs tr).2 = (append_blocks env t blocks bs tr'').2 := by
  cases bs with
  | zero => rfl
  | succ bpred =>
    exact appendGo_snd_indep env t bpred blocks.length blocks 0 tr tr'' (le_refl _)

theorem copy_blocks_zero (env : Env) (s t : String) (bs : Nat) (tr : Trace) :
    copy_blocks env 0 s t bs tr = (tr, false) := by
  rw [copy_blocks]

theorem copy_blocks_succ (env : Env) (fuel : Nat) (s t : String) (bs : Nat)
    (tr : Trace) :
    copy_blocks env (fuel + 1) s t bs tr =
      (let tr1 := { tr with calls := tr.calls ++ [(s, t)] }
       let fr := fetch_blocks (env.pages s)
       let tr2 := { tr1 with reads := tr1.reads ++ fr.1.map (fun c => (s, c)) }
       match fr.2 with
       | none => (tr2, false)
       | some blocks_buffer =>
         let new_blocks := prepare_blocks_for_copy blocks_buffer
         let ar := append_blocks env t new_blocks bs tr2
         match ar.2 with
         | none => (ar.1, false)
         | some created_blocks =>
           (recurseChildren env fuel bs (blocks_buffer.zip created_blocks) ar.1,
            true)) := by
  rw [copy_blocks]

theorem recurseChildren_nil (env : Env) (fuel bs : Nat) (tr : Trace) :
    recurseChildren env fuel bs [] tr = tr := by
  rw [recurseChildren]

theorem recurseChildren_cons (env : Env) (fuel bs : Nat) (p : Block × Block)
    (ps : List (Block × Block)) (tr : Trace) :
    recurseChildren env fuel bs (p :: ps) tr =
      recurseChildren env fuel bs ps
        (if p.1.has_children
         then (copy_blocks env fuel p.1.id p.2.id bs tr).1
         else tr) := by
  rw [recurseChildren]

/-- C9: on a source whose (single-page) child list is empty, `copy_blocks`
issues exactly one read and nothing else: no append call is attempted, no
recursive invocation is entered, and the call returns success. -/
theorem copy_blocks_empty_source (env : Env) (fuel : Nat) (s t : String)
    (bpred : Nat) (tr : Trace)
    (hp : env.pages s =
      [Except.ok { results := [], has_more := false, next_cursor := none }]) :
    copy_blocks env (fuel + 1) s t (bpred + 1) tr =
      ({ tr with
         calls := tr.calls ++ [(s, t)],
         reads := tr.reads ++ [(s, none)] },
       true) := by
  rw [copy_blocks_succ]
  simp [hp, fetch_blocks, fetchGo, prepare_blocks_for_copy, prepareGo,
    append_blocks, appendGo, recurseChildren_nil]

/-- C1 counterexample: under `env1` the recursive call on descendant "c"
(entered with exactly the trace the top-level run hands it) fails, yet the
top-level call returns `true` -- the code discards the recursive result, so
a descendant failure does not make the top level report failure. -/
theorem copy_blocks_ignores_recursive_failure :
    (copy_blocks env1 2 "s" "t" 100 { reads := [], writes := [], committed := [], calls := [] } =
      ({ reads := [("s", none), ("c", none)],
         writes := [("t", [{ type := "paragraph",
                             content := { rich_text := none, other := [] } }])],
         committed := [("t", [{ type := "paragraph",
                                content := { rich_text := none, other := [] } }])],
         calls := [("s", "t"), ("c", "c2")] },
       true)) ∧
    (copy_blocks env1 1 "c" "c2" 100
      { reads := [("s", none)],
        writes := [("t", [{ type := "paragraph",
                            content := { rich_text := none, other := [] } }])],
        committed := [("t", [{ type := "paragraph",
                               content := { rich_text := none, other := [] } }])],
        calls := [("s", "t")] }).2 = false := by
  constructor
  · rw [copy_blocks_succ]
    simp [env1, fetch_blocks, fetchGo, prepare_blocks_for_copy, prepareGo,
      prepareBlock, append_blocks, appendGo, recurseChildren_cons,
      recurseChildren_nil, copy_blocks_succ]
  · rw [copy_blocks_succ]
    simp [env1, fetch_blocks, fetchGo]

/-- C1 amended: `copy_blocks` returns `true` iff the initial fetch and every
batch write of the current level succeed; the boolean results of the
recursive calls on children are discarded, so they never influence the
returned value. -/
theorem copy_blocks_success_iff (env : Env) (fuel : Nat) (s t : String)
    (bs : Nat) (tr : Trace) :
    (copy_blocks env (fuel + 1) s t bs tr).2 = true ↔
      ∃ blocks, (fetch_blocks (env.pages s)).2 = some blocks ∧
        (append_blocks env t (prepare_blocks_for_copy blocks) bs tr).2.isSome = true := by
  rw [copy_blocks_succ]
  cases hf : (fetch_blocks (env.pages s)).2 with
  | none => simp [hf]
  | some blocks =>
    simp only [hf]
    have hind := append_blocks_snd_indep env t (prepare_blocks_for_copy blocks) bs
      { tr with
        calls := tr.calls ++ [(s, t)],
        reads := tr.reads ++ (fetch_blocks (env.pages s)).1.map (fun c => (s, c)) }
      tr
    cases ha : (append_blocks env t (prepare_blocks_for_copy blocks) bs
        { tr with
          calls := tr.calls ++ [(s, t)],
          reads := tr.reads ++ (fetch_blocks (env.pages s)).1.map (fun c => (s, c)) }).2 with
    | none =>
      rw [ha] at hind
      simp [ha, ← hind]
    | some created =>
      rw [ha] at hind
      simp [ha, ← hind]

/-- C9 witness: a store with one empty page; with the default batch size 100
the run logs a single read, no write, no further call, and succeeds. -/
theorem copy_blocks_empty_source_witness :
    copy_blocks
      { pages := fun _ =>
          [Except.ok { results := [], has_more := false, next_cursor := none }],
        append := fun _ _ _ => Except.error () }
      1 "s" "t" 100 { reads := [], writes := [], committed := [], calls := [] } =
      ({ reads := [("s", none)], writes := [], committed := [],
         calls := [("s", "t")] },
       true) := by
  simpa using copy_blocks_empty_source
    { pages := fun _ =>
        [Except.ok { results := [], has_more := false, next_cursor := none }],
      append := fun _ _ _ => Except.error () }
    0 "s" "t" 99 { reads := [], writes := [], committed := [], calls := [] } rfl

/-- C5: when the append call for batch `k` of the current level fails while
all earlier batches succeed, `copy_blocks` attempts exactly batches
`0..k` (none after `k`), reports failure, and the store-acknowledged writes
of batches `0..k-1` remain logged as committed -- nothing is undone. -/
theorem copy_blocks_batch_write_failure (env : Env) (fuel : Nat) (s t : String)
    (bpred : Nat) (tr : Trace) (blocks : List Block) (k : Nat)
    (bk : List BlockPayload)
    (hp : env.pages s =
      [Except.ok { results := blocks, has_more := false, next_cursor := none }])
    (hsucc : ∀ i bi, i < k →
      (batchesOf bpred (prepare_blocks_for_copy blocks)).get? i = some bi →
      ∃ cr, env.append t i bi = .ok cr)
    (hget : (batchesOf bpred (prepare_blocks_for_copy blocks)).get? k = some bk)
    (hfail : env.append t k bk = .error ()) :
    copy_blocks env (fuel + 1) s t (bpred + 1) tr =
      ({ tr with
         calls := tr.calls ++ [(s, t)],
         reads := tr.reads ++ [(s, none)],
         writes := tr.writes ++
           (((batchesOf bpred (prepare_blocks_for_copy blocks)).take (k + 1)).map
             (fun bb => (t, bb))),
         committed := tr.committed ++
           (((batchesOf bpred (prepare_blocks_for_copy blocks)).take k).map
             (fun bb => (t, bb))) },
       false) := by
  rw [copy_blocks_succ]
  have hfetch : fetch_blocks (env.pages s) = ([none], some blocks) := by
    simp [hp, fetch_blocks, fetchGo]
  simp only [hfetch]
  have happ := appendGo_fail env t bpred k (prepare_blocks_for_copy blocks) 0
    { tr with
      calls := tr.calls ++ [(s, t)],
      reads := tr.reads ++ [(s, none)] }
    bk
    (fun i bi hi hgi => by simpa using hsucc i bi hi hgi)
    hget
    (by simpa using hfail)
  simp only [List.map_cons, List.map_nil, append_blocks]
  simp only [happ]

/-- C5 witness: with batch size 1 and three children, batch 1 fails: exactly
batches 0 and 1 are attempted, only batch 0 is committed (and stays
committed), batch 2 is never attempted, and the call returns failure. -/
theorem copy_blocks_batch_write_failure_witness :
    copy_blocks env5 1 "s" "t" 1
      { reads := [], writes := [], committed := [], calls := [] } =
      ({ reads := [("s", none)],
         writes := [("t", [{ type := "paragraph",
                             content := { rich_text := none, other := [] } }]),
                    ("t", [{ type := "paragraph",
                             content := { rich_text := none, other := [] } }])],
         committed := [("t", [{ type := "paragraph",
                                content := { rich_text := none, other := [] } }])],
         calls := [("s", "t")] },
       false) := by
  have h := copy_blocks_batch_write_failure env5 0 "s" "t" 0
    { reads := [], writes := [], committed := [], calls := [] }
    [{ id := "b1", type := "paragraph",
       content := { rich_text := none, other := [] }, has_children := false },
     { id := "b2", type := "paragraph",
       content := { rich_text := none, other := [] }, has_children := false },
     { id := "b3", type := "paragraph",
       content := { rich_text := none, other := [] }, has_children := false }]
    1
    [{ type := "paragraph", content := { rich_text := none, other := [] } }]
    rfl
    (fun i bi hi hgi => by
      have hi0 : i = 0 := by omega
      subst hi0
      exact ⟨[{ id := "n", type := "paragraph",
                content := { rich_text := none, other := [] },
                has_children := false }], rfl⟩)
    (by simp [batchesOf, prepare_blocks_for_copy, prepareGo, prepareBlock])
    rfl
  rw [h]
  have hb : batchesOf 0 (prepare_blocks_for_copy
      [{ id := "b1", type := "paragraph",
         content := { rich_text := none, other := [] }, has_children := false },
       { id := "b2", type := "paragraph",
         content := { rich_text := none, other := [] }, has_children := false },
       { id := "b3", type := "paragraph",
         content := { rich_text := none, other := [] }, has_children := false }]) =
      [[{ type := "paragraph", content := { rich_text := none, other := [] } }],
       [{ type := "paragraph", content := { rich_text := none, other := [] } }],
       [{ type := "paragraph", content := { rich_text := none, other := [] } }]] := by
    simp [batchesOf, prepare_blocks_for_copy, prepareGo, prepareBlock]
  rw [hb]
  ext <;> simp

/-- C2: when every batch write of a level succeeds, the attempted (and
committed) append calls are exactly the consecutive batches of the prepared
payloads, in order; their concatenation is the whole prepared payload list;
and the prepared list is the elementwise rewrite of the fetched children:
the `i`th payload is the `i`th child's type tag with the child's content,
its `rich_text` (when present) rewritten and all other fields unmodified --
for every positive batch size `bpred + 1`. -/
theorem append_blocks_order_preservation (env : Env) (t : String)
    (blocks : List Block) (bpred : Nat) (tr tr2 : Trace) (created : List Block)
    (i : Nat) (c : Block)
    (h : append_blocks env t (prepare_blocks_for_copy blocks) (bpred + 1) tr =
      (tr2, some created)) :
    tr2.writes = tr.writes ++
      (batchesOf bpred (prepare_blocks_for_copy blocks)).map (fun bb => (t, bb)) ∧
    tr2.committed = tr.committed ++
      (batchesOf bpred (prepare_blocks_for_copy blocks)).map (fun bb => (t, bb)) ∧
    (batchesOf bpred (prepare_blocks_for_copy blocks)).flatten =
      prepare_blocks_for_copy blocks ∧
    (prepare_blocks_for_copy blocks).length = blocks.length ∧
    (prepare_blocks_for_copy blocks).get? i = (blocks.get? i).map prepareBlock ∧
    (prepareBlock c).type = c.type ∧
    (prepareBlock c).content.rich_text = c.content.rich_text.map convert_rich_text ∧
    (prepareBlock c).content.other = c.content.other := by
  have htr := appendGo_ok env t bpred (prepare_blocks_for_copy blocks).length
    (prepare_blocks_for_copy blocks) 0 tr tr2 created (le_refl _)
    (by simpa [append_blocks] using h)
  refine ⟨by simp [htr], by simp [htr], batchesOf_flatten _ _, ?_, ?_, ?_, ?_, ?_⟩
  · simp [prepare_blocks_for_copy_eq_map]
  · simp [prepare_blocks_for_copy_eq_map]
  · cases hc : c.content.rich_text <;> simp [prepareBlock, hc]
  · cases hc : c.content.rich_text <;> simp [prepareBlock, hc]
  · cases hc : c.content.rich_text <;> simp [prepareBlock, hc]

/-- C2 witness: with batch size 1 and children `[blk1, blk2]` (the first
holding a `link_mention` span) the appends succeed batch by batch, and the
theorem's conclusions hold at index 1 and child `blk1`. -/
theorem append_blocks_order_preservation_witness :
    (append_blocks env2 "t" (prepare_blocks_for_copy [blk1, blk2]) 1
      { reads := [], writes := [], committed := [], calls := [] } =
      (trW2, some [nBlk, nBlk])) ∧
    (trW2.writes = [] ++
      (batchesOf 0 (prepare_blocks_for_copy [blk1, blk2])).map (fun bb => ("t", bb)) ∧
    trW2.committed = [] ++
      (batchesOf 0 (prepare_blocks_for_copy [blk1, blk2])).map (fun bb => ("t", bb)) ∧
    (batchesOf 0 (prepare_blocks_for_copy [blk1, blk2])).flatten =
      prepare_blocks_for_copy [blk1, blk2] ∧
    (prepare_blocks_for_copy [blk1, blk2]).length = [blk1, blk2].length ∧
    (prepare_blocks_for_copy [blk1, blk2]).get? 1 =
      ([blk1, blk2].get? 1).map prepareBlock ∧
    (prepareBlock blk1).type = blk1.type ∧
    (prepareBlock blk1).content.rich_text =
      blk1.content.rich_text.map convert_rich_text ∧
    (prepareBlock blk1).content.other = blk1.content.other) := by
  have hW : append_blocks env2 "t" (prepare_blocks_for_copy [blk1, blk2]) 1
      { reads := [], writes := [], committed := [], calls := [] } =
      (trW2, some [nBlk, nBlk]) := by
    simp [env2, trW2, append_blocks, appendGo, prepare_blocks_for_copy,
      prepareGo, prepareBlock, convert_rich_text, convertGo, convertSpan,
      spanIsLinkMention, blk1, blk2, lmSpan, lmText, tdSpan]
  exact ⟨hW, append_blocks_order_preservation env2 "t" [blk1, blk2] 0
    { reads := [], writes := [], committed := [], calls := [] }
    trW2 [nBlk, nBlk] 1 blk1 hW⟩

theorem zip_truncates {α β : Type} :
    ∀ (xs : List α) (ys : List β), xs.zip ys = (xs.take ys.length).zip ys := by
  intro xs
  induction xs with
  | nil => intro ys; simp
  | cons x xs ih =>
    intro ys
    cases ys with
    | nil => simp
    | cons y ys => simp [List.zip_cons_cons, ih ys]

theorem recurseChildren_unreachable (env : Env) (f bs : Nat) :
    ∀ (pairs : List (Block × Block)) (tr : Trace),
      (∀ p ∈ pairs, env.pages p.1.id = []) →
      recurseChildren env (f + 1) bs pairs tr =
        { tr with calls := tr.calls ++
            ((pairs.filter (fun p => p.1.has_children)).map
              (fun p => (p.1.id, p.2.id))) } := by
  intro pairs
  induction pairs with
  | nil =>
    intro tr h
    rw [recurseChildren_nil]
    ext <;> simp
  | cons p ps ih =>
    intro tr h
    rw [recurseChildren_cons]
    have hp := h p (List.mem_cons_self p ps)
    have hcopy : (copy_blocks env (f + 1) p.1.id p.2.id bs tr).1 =
        { tr with calls := tr.calls ++ [(p.1.id, p.2.id)] } := by
      rw [copy_blocks_succ]
      simp [hp, fetch_blocks, fetchGo]
    by_cases hc : p.1.has_children = true
    · rw [if_pos hc, hcopy,
        ih { tr with calls := tr.calls ++ [(p.1.id, p.2.id)] }
          (fun q hq => h q (List.mem_cons_of_mem p hq))]
      ext <;> simp [List.filter_cons, hc]
    · rw [if_neg hc, ih tr (fun q hq => h q (List.mem_cons_of_mem p hq))]
      ext <;> simp [List.filter_cons, hc]

theorem appendGo_single_batch (env : Env) (t : String) (bpred : Nat)
    (blocks : List BlockPayload) (tr : Trace) (created : List Block)
    (hlen : blocks.length ≤ bpred + 1) (hne : blocks ≠ [])
    (happ : env.append t 0 blocks = .ok created) :
    appendGo env t bpred 0 blocks tr =
      ({ tr with writes := tr.writes ++ [(t, blocks)],
                 committed := tr.committed ++ [(t, blocks)] },
       some created) := by
  match blocks with
  | [] => exact absurd rfl hne
  | b :: bs =>
    rw [appendGo]
    have htake : (b :: bs).take (bpred + 1) = b :: bs :=
      List.take_of_length_le hlen
    rw [htake, happ]
    have hdrop : bs.drop bpred = [] := by
      apply List.drop_eq_nil_of_le
      have h2 : bs.length + 1 ≤ bpred + 1 := by simpa using hlen
      omega
    rw [hdrop]
    simp [appendGo]

/-- C6: when a single successful batch write acknowledges fewer created
blocks than children were fetched, `copy_blocks` pairs children with created
blocks by `zip`, whose length is exactly the created count (never an
out-of-range index), and recurses only into the first `created.length`
children: the calls entered are those of `(blocks.take created.length).zip
created` with `has_children` set, the unmatched tail children triggering
nothing. -/
theorem copy_blocks_short_created_guard (env : Env) (fuel : Nat) (s t : String)
    (bpred : Nat) (tr : Trace) (blocks created : List Block)
    (hp : env.pages s =
      [Except.ok { results := blocks, has_more := false, next_cursor := none }])
    (hbs : blocks.length ≤ bpred + 1)
    (happ : env.append t 0 (prepare_blocks_for_copy blocks) = .ok created)
    (hlen : created.length < blocks.length)
    (hchild : ∀ b ∈ blocks, env.pages b.id = []) :
    copy_blocks env (fuel + 2) s t (bpred + 1) tr =
      ({ tr with
         calls := tr.calls ++ (s, t) ::
           ((((blocks.take created.length).zip created).filter
             (fun p => p.1.has_children)).map (fun p => (p.1.id, p.2.id))),
         reads := tr.reads ++ [(s, none)],
         writes := tr.writes ++ [(t, prepare_blocks_for_copy blocks)],
         committed := tr.committed ++ [(t, prepare_blocks_for_copy blocks)] },
       true) ∧
    (blocks.zip created).length = created.length := by
  have hzlen : (blocks.zip created).length = created.length := by
    simp [List.length_zip]
    omega
  refine ⟨?_, hzlen⟩
  rw [copy_blocks_succ]
  have hfetch : fetch_blocks (env.pages s) = ([none], some blocks) := by
    simp [hp, fetch_blocks, fetchGo]
  simp only [hfetch, List.map_cons, List.map_nil]
  have hbne : blocks ≠ [] := by
    intro he
    rw [he] at hlen
    simp at hlen
  have hpne : prepare_blocks_for_copy blocks ≠ [] := by
    rw [prepare_blocks_for_copy_eq_map]
    simpa using hbne
  have hplen : (prepare_blocks_for_copy blocks).length ≤ bpred + 1 := by
    rw [prepare_blocks_for_copy_eq_map]
    simpa using hbs
  have happG := appendGo_single_batch env t bpred (prepare_blocks_for_copy blocks)
    { tr with
      calls := tr.calls ++ [(s, t)],
      reads := tr.reads ++ [(s, none)] }
    created hplen hpne happ
  simp only [append_blocks, happG]
  have hpairs : ∀ p ∈ blocks.zip created, env.pages p.1.id = [] := by
    intro p hpz
    exact hchild p.1 (List.of_mem_zip hpz).1
  rw [recurseChildren_unreachable env fuel (bpred + 1) (blocks.zip created) _ hpairs]
  rw [show ((blocks.take created.length).zip created) = blocks.zip created from
    (zip_truncates blocks created).symm]
  ext <;> simp

/-- C6 witness: with 2 children and 1 created block, the run pairs only
child "c1" (entering exactly one recursive call) and never touches "c2". -/
theorem copy_blocks_short_created_guard_witness :
    ([crt1].length < [chld1, chld2].length ∧ [chld1, chld2].length ≤ 99 + 1) ∧
    (copy_blocks env6 2 "s" "t" 100
      { reads := [], writes := [], committed := [], calls := [] } =
      ({ reads := [("s", none)],
         writes := [("t", prepare_blocks_for_copy [chld1, chld2])],
         committed := [("t", prepare_blocks_for_copy [chld1, chld2])],
         calls := ("s", "t") ::
           (((([chld1, chld2].take [crt1].length).zip [crt1]).filter
             (fun p => p.1.has_children)).map (fun p => (p.1.id, p.2.id))) },
       true) ∧
    ([chld1, chld2].zip [crt1]).length = [crt1].length) := by
  have h := copy_blocks_short_created_guard env6 0 "s" "t" 99
    { reads := [], writes := [], committed := [], calls := [] }
    [chld1, chld2] [crt1]
    rfl (by decide) rfl (by decide) (by simp [env6, chld1, chld2])
  exact ⟨⟨by decide, by decide⟩, h⟩

theorem heapExtends_refl (h : Heap) : HeapExtends h h :=
  ⟨le_refl _, fun _ _ => rfl⟩

theorem heapExtends_trans {h0 h1 h2 : Heap}
    (e1 : HeapExtends h0 h1) (e2 : HeapExtends h1 h2) : HeapExtends h0 h2 :=
  ⟨le_trans e1.1 e2.1,
   fun a ha => (e2.2 a (lt_of_lt_of_le ha e1.1)).trans (e1.2 a ha)⟩

theorem heapExtends_alloc (h : Heap) (v : HVal) :
    HeapExtends h (Heap.alloc h v).1 :=
  ⟨by simp [Heap.alloc], fun a ha => List.getElem?_append_left ha⟩

theorem heapExtends_set {h0 h1 : Heap} (e : HeapExtends h0 h1) (i : Nat)
    (v : HVal) (hi : h0.length ≤ i) : HeapExtends h0 (h1.set i v) :=
  ⟨by simpa using e.1,
   fun a ha => by
     rw [List.getElem?_set_ne (by omega : i ≠ a)]
     exact e.2 a ha⟩

theorem convertSpansH_extends :
    ∀ (addrs : List Nat) (h : Heap), HeapExtends h (convertSpansH h addrs).1 := by
  intro addrs
  induction addrs with
  | nil => intro h; exact heapExtends_refl h
  | cons a rest ih =>
    intro h
    cases hg : h[a]? with
    | none => simp [convertSpansH, hg]; exact heapExtends_refl h
    | some v =>
      cases v with
      | spanCell s =>
        by_cases hlm : spanIsLinkMention s
        · have e2 := ih (Heap.alloc h (.spanCell (convertSpan s))).1
          rcases hres : convertSpansH (Heap.alloc h (.spanCell (convertSpan s))).1 rest
            with ⟨h2, res⟩
          rw [hres] at e2
          have e1 := heapExtends_alloc h (.spanCell (convertSpan s))
          cases res <;> simp [convertSpansH, hg, hlm, hres] <;>
            exact heapExtends_trans e1 e2
        · have e2 := ih h
          rcases hres : convertSpansH h rest with ⟨h2, res⟩
          rw [hres] at e2
          cases res <;> simp [convertSpansH, hg, hlm, hres] <;> exact e2
      | blockCell i ty ca hc => simp [convertSpansH, hg]; exact heapExtends_refl h
      | contentCell rta o => simp [convertSpansH, hg]; exact heapExtends_refl h
      | listCell es => simp [convertSpansH, hg]; exact heapExtends_refl h
      | payloadCell ty ca => simp [convertSpansH, hg]; exact heapExtends_refl h

theorem convertRichTextH_extends (h : Heap) (la : Nat) :
    HeapExtends h (convertRichTextH h la).1 := by
  cases hg : h[la]? with
  | none => simp [convertRichTextH, hg]; exact heapExtends_refl h
  | some v =>
    cases v with
    | listCell es =>
      have e1 := convertSpansH_extends es h
      rcases hres : convertSpansH h es with ⟨h2, res⟩
      rw [hres] at e1
      cases res with
      | none => simp [convertRichTextH, hg, hres]; exact e1
      | some as =>
        simp [convertRichTextH, hg, hres]
        exact heapExtends_trans e1 (heapExtends_alloc h2 (.listCell as))
    | blockCell i ty ca hc => simp [convertRichTextH, hg]; exact heapExtends_refl h
    | contentCell rta o => simp [convertRichTextH, hg]; exact heapExtends_refl h
    | spanCell s => simp [convertRichTextH, hg]; exact heapExtends_refl h
    | payloadCell ty ca => simp [convertRichTextH, hg]; exact heapExtends_refl h

theorem prepareBlockH_extends (h : Heap) (ba : Nat) :
    HeapExtends h (prepareBlockH h ba).1 := by
  cases hg : h[ba]? with
  | none => simp [prepareBlockH, hg]; exact heapExtends_refl h
  | some v =>
    cases v with
    | blockCell i ty ca hc =>
      cases hg2 : h[ca]? with
      | none => simp [prepareBlockH, hg, hg2]; exact heapExtends_refl h
      | some w =>
        cases w with
        | contentCell rta other =>
          cases rta with
          | none =>
            simp only [prepareBlockH, hg, hg2]
            exact heapExtends_trans
              (heapExtends_alloc h (.contentCell none other))
              (heapExtends_alloc _ (.payloadCell ty _))
          | some rtAddr =>
            have e1 := heapExtends_alloc h (.contentCell (some rtAddr) other)
            have e2 := convertRichTextH_extends
              (Heap.alloc h (.contentCell (some rtAddr) other)).1 rtAddr
            rcases hres : convertRichTextH
                (Heap.alloc h (.contentCell (some rtAddr) other)).1 rtAddr
              with ⟨h2, res⟩
            rw [hres] at e2
            cases res with
            | none =>
              simp only [prepareBlockH, hg, hg2, hres]
              exact heapExtends_trans e1 e2
            | some newRt =>
              simp only [prepareBlockH, hg, hg2, hres]
              exact heapExtends_trans
                (heapExtends_set (heapExtends_trans e1 e2)
                  (Heap.alloc h (.contentCell (some rtAddr) other)).2
                  (.contentCell (some newRt) other)
                  (by simp [Heap.alloc]))
                (heapExtends_alloc _ (.payloadCell ty _))
        | blockCell i2 t2 c2 b2 => simp [prepareBlockH, hg, hg2]; exact heapExtends_refl h
        | listCell es => simp [prepareBlockH, hg, hg2]; exact heapExtends_refl h
        | spanCell s => simp [prepareBlockH, hg, hg2]; exact heapExtends_refl h
        | payloadCell t2 c2 => simp [prepareBlockH, hg, hg2]; exact heapExtends_refl h
    | contentCell rta o => simp [prepareBlockH, hg]; exact heapExtends_refl h
    | listCell es => simp [prepareBlockH, hg]; exact heapExtends_refl h
    | spanCell s => simp [prepareBlockH, hg]; exact heapExtends_refl h
    | payloadCell ty ca => simp [prepareBlockH, hg]; exact heapExtends_refl h

theorem prepareBlocksH_extends :
    ∀ (addrs : List Nat) (h : Heap), HeapExtends h (prepareBlocksH h addrs).1 := by
  intro addrs
  induction addrs with
  | nil => intro h; exact heapExtends_refl h
  | cons a rest ih =>
    intro h
    have e1 := prepareBlockH_extends h a
    rcases h1 : prepareBlockH h a with ⟨h2, r1⟩
    rw [h1] at e1
    cases r1 with
    | none => simp [prepareBlocksH, h1]; exact e1
    | some pa =>
      have e2 := ih h2
      rcases h2r : prepareBlocksH h2 rest with ⟨h3, r2⟩
      rw [h2r] at e2
      cases r2 with
      | none => simp [prepareBlocksH, h1, h2r]; exact heapExtends_trans e1 e2
      | some pas => simp [prepareBlocksH, h1, h2r]; exact heapExtends_trans e1 e2

theorem prepareBlockH_fresh (h : Heap) (ba : Nat) (h' : Heap) (pa : Nat)
    (heq : prepareBlockH h ba = (h', some pa)) : h.length ≤ pa := by
  cases hg : h[ba]? with
  | none => simp [prepareBlockH, hg] at heq
  | some v =>
    cases v with
    | blockCell i ty ca hc =>
      cases hg2 : h[ca]? with
      | none => simp [prepareBlockH, hg, hg2] at heq
      | some w =>
        cases w with
        | contentCell rta other =>
          cases rta with
          | none =>
            simp only [prepareBlockH, hg, hg2, Prod.mk.injEq] at heq
            have hpa : pa = (Heap.alloc h (.contentCell none other)).1.length := by
              simpa [Heap.alloc] using heq.2.symm
            rw [hpa]
            simp [Heap.alloc]
          | some rtAddr =>
            have e1 := heapExtends_alloc h (.contentCell (some rtAddr) other)
            have e2 := convertRichTextH_extends
              (Heap.alloc h (.contentCell (some rtAddr) other)).1 rtAddr
            rcases hres : convertRichTextH
                (Heap.alloc h (.contentCell (some rtAddr) other)).1 rtAddr
              with ⟨h2, res⟩
            rw [hres] at e2
            cases res with
            | none => simp [prepareBlockH, hg, hg2, hres] at heq
            | some newRt =>
              simp only [prepareBlockH, hg, hg2, hres, Prod.mk.injEq] at heq
              have hpa : pa =
                  (h2.set (Heap.alloc h (.contentCell (some rtAddr) other)).2
                    (.contentCell (some newRt) other)).length := by
                simpa [Heap.alloc] using heq.2.symm
              rw [hpa]
              have := (heapExtends_trans e1 e2).1
              simp only [List.length_set]
              calc h.length ≤ (Heap.alloc h (.contentCell (some rtAddr) other)).1.length := e1.1
                _ ≤ h2.length := e2.1
        | blockCell i2 t2 c2 b2 => simp [prepareBlockH, hg, hg2] at heq
        | listCell es => simp [prepareBlockH, hg, hg2] at heq
        | spanCell s => simp [prepareBlockH, hg, hg2] at heq
        | payloadCell t2 c2 => simp [prepareBlockH, hg, hg2] at heq
    | contentCell rta o => simp [prepareBlockH, hg] at heq
    | listCell es => simp [prepareBlockH, hg] at heq
    | spanCell s => simp [prepareBlockH, hg] at heq
    | payloadCell ty ca => simp [prepareBlockH, hg] at heq

theorem prepareBlocksH_fresh :
    ∀ (addrs : List Nat) (h h' : Heap) (pas : List Nat),
      prepareBlocksH h addrs = (h', some pas) →
      ∀ pa ∈ pas, h.length ≤ pa := by
  intro addrs
  induction addrs with
  | nil =>
    intro h h' pas heq pa hpa
    simp only [prepareBlocksH, Prod.mk.injEq] at heq
    rw [← Option.some.inj heq.2] at hpa
    simp at hpa
  | cons a rest ih =>
    intro h h' pas heq pa hpa
    rcases h1 : prepareBlockH h a with ⟨h2, r1⟩
    cases r1 with
    | none => simp [prepareBlocksH, h1] at heq
    | some pa0 =>
      rcases h2r : prepareBlocksH h2 rest with ⟨h3, r2⟩
      cases r2 with
      | none => simp [prepareBlocksH, h1, h2r] at heq
      | some pas' =>
        simp only [prepareBlocksH, h1, h2r, Prod.mk.injEq] at heq
        rw [← Option.some.inj heq.2] at hpa
        rcases List.mem_cons.mp hpa with hh | hh
        · rw [hh]
          exact prepareBlockH_fresh h a h2 pa0 h1
        · have e1 := prepareBlockH_extends h a
          rw [h1] at e1
          exact le_trans e1.1 (ih h2 h3 pas' h2r pa hh)

/-- C7: building the write payloads mutates no pre-existing object: every
heap cell that exists before `_prepare_blocks_for_copy` runs -- the fetched
block dicts, their content dicts, their `rich_text` list objects and every
span dict -- holds exactly the same value afterwards, and every returned
payload is a freshly allocated object (its address did not exist before). -/
theorem prepare_blocks_for_copy_no_mutation (h : Heap) (blockAddrs : List Nat)
    (a pa : Nat) (h' : Heap) (pas : List Nat)
    (ha : a < h.length)
    (heq : prepareBlocksH h blockAddrs = (h', some pas))
    (hpa : pa ∈ pas) :
    h'[a]? = h[a]? ∧ h.length ≤ pa := by
  have e := prepareBlocksH_extends blockAddrs h
  rw [heq] at e
  exact ⟨e.2 a ha, prepareBlocksH_fresh blockAddrs h h' pas heq pa hpa⟩

/-- C7 witness: running payload construction on the concrete heap leaves
cell 0 (the source span) unchanged and allocates the payload at the fresh
address 7. -/
theorem prepare_blocks_for_copy_no_mutation_witness :
    (0 < h7start.length ∧
     prepareBlocksH h7start [3] = (h7final, some [7]) ∧ 7 ∈ [7]) ∧
    (h7final[0]? = h7start[0]? ∧ h7start.length ≤ 7) := by
  have hW : prepareBlocksH h7start [3] = (h7final, some [7]) := by decide
  exact ⟨⟨by decide, hW, by decide⟩,
    prepare_blocks_for_copy_no_mutation h7start [3] 0 7 h7final [7]
      (by decide) hW (by decide)⟩

end NotionJournal
